import Mathlib

/-
  Verification of the imap-codec repository core against its specification.

  The Rust sources are shallowly embedded: inputs are lists of characters
  (standing for bytes), and every nom parser becomes a function
  `Input → Except PErr (Input × α)`.  nom's three-way error discipline
  (Incomplete / recoverable Error / terminal Failure) is modelled by `PErr`.
-/

deriving instance DecidableEq for Except

namespace Imap

/-- Input to a parser: the remaining byte stream, one `Char` per byte. -/
abbrev Input := List Char

/-- Error kinds mirroring the nom `ErrorKind` values used by the embedded
parsers.  `tooLarge` is the recursion-budget (Budget) category. -/
inductive ErrKind where
  | tooLarge
  | tagKind
  | takeOne
  | mapRes
  | sepList
  | manyKind
  | overflow
  | quotedKind
  | fuel
  deriving DecidableEq, Repr

/-- Parse error: nom distinguishes `Incomplete` (valid so far, needs more
bytes), recoverable `Error` (an enclosing `alt` may try another branch) and
terminal `Failure` (malformed; propagates through `alt`). -/
inductive PErr where
  | incomplete
  | recoverable (k : ErrKind)
  | terminal (k : ErrKind)
  deriving DecidableEq, Repr

/-- Result of running a parser: remaining input and value, or an error. -/
abbrev PResult (α : Type) := Except PErr (Input × α)

/-- A streaming parser over byte lists. -/
abbrev Parser (α : Type) := Input → PResult α

/-- Combinator `map`: apply a function to a parser's output. -/
def pmap {α β : Type} (p : Parser α) (f : α → β) : Parser β := fun i =>
  match p i with
  | .ok (rem, a) => .ok (rem, f a)
  | .error e => .error e

/-- Combinator `value`: replace a parser's output by a constant. -/
def pvalue {α β : Type} (b : β) (p : Parser α) : Parser β := pmap p (fun _ => b)

/-- Combinator `alt` for two branches: the second branch runs only when the
first fails with a recoverable error; `Incomplete` and `Failure` propagate. -/
def alt2 {α : Type} (p q : Parser α) : Parser α := fun i =>
  match p i with
  | .error (.recoverable _) => q i
  | r => r

/-- Sequencing of two parsers, as in nom's `tuple`. -/
def pseq {α β : Type} (p : Parser α) (q : Parser β) : Parser (α × β) := fun i =>
  match p i with
  | .error e => .error e
  | .ok (i1, a) =>
    match q i1 with
    | .error e => .error e
    | .ok (i2, b) => .ok (i2, (a, b))

/-- Combinator `preceded`: run both parsers, keep the second value. -/
def preceded {α β : Type} (p : Parser α) (q : Parser β) : Parser β :=
  pmap (pseq p q) Prod.snd

/-- Combinator `terminated`: run both parsers, keep the first value. -/
def terminated {α β : Type} (p : Parser α) (q : Parser β) : Parser α :=
  pmap (pseq p q) Prod.fst

/-- Combinator `delimited`: run three parsers, keep the middle value. -/
def delimited {α β γ : Type} (l : Parser α) (m : Parser β) (r : Parser γ) : Parser β :=
  pmap (pseq l (pseq m r)) (fun x => x.2.1)

/-- Combinator `opt`: turn a recoverable failure into `none` without
consuming input; `Incomplete` and `Failure` still propagate. -/
def popt {α : Type} (p : Parser α) : Parser (Option α) := fun i =>
  match p i with
  | .ok (i1, a) => .ok (i1, some a)
  | .error (.recoverable _) => .ok (i, none)
  | .error e => .error e

/-- Combinator `peek`: run a parser without consuming input. -/
def ppeek {α : Type} (p : Parser α) : Parser α := fun i =>
  match p i with
  | .ok (_, a) => .ok (i, a)
  | .error e => .error e

/-- Combinator `map_res`: a fallible mapping; a `none` result is a
recoverable error. -/
def pmapRes {α β : Type} (p : Parser α) (f : α → Option β) : Parser β := fun i =>
  match p i with
  | .error e => .error e
  | .ok (i1, a) =>
    match f a with
    | some b => .ok (i1, b)
    | none => .error (.recoverable .mapRes)

/-- Combinator `recognize`: return the consumed input slice. -/
def precognize {α : Type} (p : Parser α) : Parser (List Char) := fun i =>
  match p i with
  | .error e => .error e
  | .ok (rem, _) => .ok (rem, i.take (i.length - rem.length))

/-- Matching engine for `tag`-style parsers: compare the expected bytes with
the input under a character comparison, returning the remainder.  Running out
of input while still matching is `Incomplete` (streaming behaviour). -/
def tagAux (cmp : Char → Char → Bool) : List Char → Input → Except PErr Input
  | [], i => .ok i
  | _ :: _, [] => .error .incomplete
  | c :: cs, d :: ds => if cmp c d then tagAux cmp cs ds else .error (.recoverable .tagKind)

/-- Combinator `tag` (case-sensitive byte string match, streaming). -/
def ptag (t : List Char) : Parser (List Char) := fun i =>
  match tagAux (fun a b => a == b) t i with
  | .ok rem => .ok (rem, i.take t.length)
  | .error e => .error e

/-- ASCII lowercase of one character. -/
def lowerChar (c : Char) : Char :=
  if 65 ≤ c.toNat ∧ c.toNat ≤ 90 then Char.ofNat (c.toNat + 32) else c

/-- ASCII lowercase of a byte string. -/
def lowerStr (s : List Char) : List Char := s.map lowerChar

/-- Combinator `tag_no_case` (ASCII case-insensitive match, streaming). -/
def ptagNoCase (t : List Char) : Parser (List Char) := fun i =>
  match tagAux (fun a b => lowerChar a == lowerChar b) t i with
  | .ok rem => .ok (rem, i.take t.length)
  | .error e => .error e

/-- Greedy scan: the longest prefix whose characters satisfy `f`, together
with the remainder.  `none` when the scan runs off the end of the input
(streaming `Incomplete`). -/
def takeWhileAux (f : Char → Bool) : Input → Option (List Char × Input)
  | [] => none
  | c :: cs =>
    if f c then
      match takeWhileAux f cs with
      | none => none
      | some (pre, rest) => some (c :: pre, rest)
    else some ([], c :: cs)

/-- Combinator `take_while` (streaming: zero or more matching bytes). -/
def take_while (f : Char → Bool) : Parser (List Char) := fun i =>
  match takeWhileAux f i with
  | none => .error .incomplete
  | some (pre, rest) => .ok (rest, pre)

/-- Combinator `take_while1` (streaming: one or more matching bytes). -/
def take_while1 (f : Char → Bool) : Parser (List Char) := fun i =>
  match takeWhileAux f i with
  | none => .error .incomplete
  | some ([], _) => .error (.recoverable .takeOne)
  | some (pre, rest) => .ok (rest, pre)

/-- Combinator `take`: exactly `n` bytes, `Incomplete` when fewer remain. -/
def ptake (n : Nat) : Parser (List Char) := fun i =>
  if n ≤ i.length then .ok (i.drop n, i.take n) else .error .incomplete

/-- Loop of nom's `many0`: collect until the element parser fails
recoverably; an element that consumes nothing is an error, as in nom.  The
fuel only bounds the recursion and is chosen large enough to never run out. -/
def many0Aux {α : Type} (p : Parser α) : Nat → Input → PResult (List α)
  | 0, _ => .error (.recoverable .fuel)
  | fuel + 1, i =>
    match p i with
    | .error (.recoverable _) => .ok (i, [])
    | .error e => .error e
    | .ok (i1, a) =>
      if i1.length < i.length then
        match many0Aux p fuel i1 with
        | .ok (i2, as_) => .ok (i2, a :: as_)
        | .error e => .error e
      else .error (.recoverable .manyKind)

/-- Combinator `many0`. -/
def many0 {α : Type} (p : Parser α) : Parser (List α) := fun i =>
  many0Aux p (i.length + 1) i

/-- Combinator `many1`: at least one element, then as `many0`. -/
def many1 {α : Type} (p : Parser α) : Parser (List α) := fun i =>
  match p i with
  | .error e => .error e
  | .ok (i1, a) =>
    if i1.length < i.length then
      match many0Aux p (i1.length + 1) i1 with
      | .ok (i2, as_) => .ok (i2, a :: as_)
      | .error e => .error e
    else .error (.recoverable .manyKind)

/-- Loop of nom's `separated_list1` after the first element: try separator
then element; a recoverable failure of either ends the list, backtracking to
before the separator. -/
def sepList1Aux {α β : Type} (sep : Parser β) (p : Parser α) :
    Nat → Input → PResult (List α)
  | 0, _ => .error (.recoverable .fuel)
  | fuel + 1, i =>
    match sep i with
    | .error (.recoverable _) => .ok (i, [])
    | .error e => .error e
    | .ok (i1, _) =>
      match p i1 with
      | .error (.recoverable _) => .ok (i, [])
      | .error e => .error e
      | .ok (i2, a) =>
        if i2.length < i.length then
          match sepList1Aux sep p fuel i2 with
          | .ok (i3, as_) => .ok (i3, a :: as_)
          | .error e => .error e
        else .error (.recoverable .sepList)

/-- Combinator `separated_list1` (nom 5's `separated_nonempty_list`). -/
def separated_list1 {α β : Type} (sep : Parser β) (p : Parser α) :
    Parser (List α) := fun i =>
  match p i with
  | .error e => .error e
  | .ok (i1, a) =>
    match sepList1Aux sep p (i1.length + 1) i1 with
    | .ok (i2, as_) => .ok (i2, a :: as_)
    | .error e => .error e

/-- Lexer `SP`: a single space. -/
def sp : Parser (List Char) := ptag [ ' ' ]

/-- Lexer `CRLF`: the two bytes CR LF (default build, no crlf quirk). -/
def crlf : Parser (List Char) := ptag [ '\r', '\n' ]

/-- Lexer `DQUOTE`. -/
def dquote : Parser (List Char) := ptag [ '"' ]

/-! Character classes.  The `core` lexers of the crate are not under `src/`;
they are modelled from the specification (section 3 and the glossary). -/

/-- Modelled from the spec: an `ATOM-CHAR` is printable ASCII excluding the
atom specials left paren, right paren, left brace, space, percent, star,
double quote, backslash and right bracket. -/
def isAtomChar (c : Char) : Bool :=
  33 ≤ c.toNat && c.toNat ≤ 126 &&
    !(c = '(' || c = ')' || c = '{' || c = '%' || c = '*' || c = '"' || c = '\\' || c = ']')

/-- Modelled from the spec: an `ASTRING-CHAR` is atom-like but also admits
the right bracket. -/
def isAstringChar (c : Char) : Bool := isAtomChar c || c = ']'

/-- Modelled from the spec: a `TEXT-CHAR` is printable ASCII (CR and LF in
particular are excluded). -/
def isTextChar (c : Char) : Bool := 32 ≤ c.toNat && c.toNat ≤ 126

/-- An ASCII decimal digit. -/
def isDigit (c : Char) : Bool := 48 ≤ c.toNat && c.toNat ≤ 57

/-- Fold a digit string into the number it denotes. -/
def digitsToNat (ds : List Char) : Nat :=
  ds.foldl (fun acc c => 10 * acc + (c.toNat - 48)) 0

/-- Modelled from the spec (the core `number` lexer is not under `src/`):
greedy decimal digits folded into a 32-bit value; overflow is malformed. -/
def number : Parser Nat := fun i =>
  match take_while1 isDigit i with
  | .error e => .error e
  | .ok (rem, ds) =>
    if digitsToNat ds < 4294967296 then .ok (rem, digitsToNat ds)
    else .error (.recoverable .overflow)

/-- Modelled from the spec (the core `nz_number` lexer is not under `src/`):
like `number` but rejecting a leading zero, which also rejects zero. -/
def nz_number : Parser Nat := fun i =>
  match take_while1 isDigit i with
  | .error e => .error e
  | .ok (rem, ds) =>
    if ds.head? = some '0' then .error (.recoverable .overflow)
    else if digitsToNat ds < 4294967296 then .ok (rem, digitsToNat ds)
    else .error (.recoverable .overflow)

/-- String variants: a quoted string or a literal. -/
inductive IString where
  | quoted (s : List Char)
  | literal (s : List Char)
  deriving DecidableEq, Repr

/-- Raw bytes of an `IString`. -/
def IString.bytes : IString → List Char
  | .quoted s => s
  | .literal s => s

/-- An `NString` is NIL or a string. -/
abbrev NStringV := Option IString

/-- Modelled from the spec: a `QUOTED-CHAR` of the quoted-string body is any
text char except the double quote and the backslash. -/
def isQuotedTextChar (c : Char) : Bool :=
  c ≠ '"' && c ≠ '\\' && c ≠ '\r' && c ≠ '\n'

/-- Scan the body of a quoted string up to (and consuming) the closing
double quote, resolving backslash escapes. -/
def quotedAux : Input → PResult (List Char)
  | [] => .error .incomplete
  | c :: cs =>
    if c = '"' then .ok (cs, [])
    else if c = '\\' then
      match cs with
      | [] => .error .incomplete
      | d :: ds =>
        if d = '"' || d = '\\' then
          match quotedAux ds with
          | .ok (rem, content) => .ok (rem, d :: content)
          | .error e => .error e
        else .error (.recoverable .quotedKind)
    else if isQuotedTextChar c then
      match quotedAux cs with
      | .ok (rem, content) => .ok (rem, c :: content)
      | .error e => .error e
    else .error (.recoverable .quotedKind)

/-- Modelled from the spec: the `quoted` lexer (a double quote, escaped
content, a double quote). -/
def quoted : Parser IString := fun i =>
  match dquote i with
  | .error e => .error e
  | .ok (i1, _) =>
    match quotedAux i1 with
    | .error e => .error e
    | .ok (rem, content) => .ok (rem, IString.quoted content)

/-- Modelled from the spec: the `literal` lexer: a brace-framed length, CRLF,
then exactly that many raw payload bytes. -/
def literal : Parser IString := fun i =>
  match (pseq (ptag [ '{' ]) (pseq number (pseq (ptag [ '}' ]) crlf))) i with
  | .error e => .error e
  | .ok (i1, (_, (n, _))) =>
    match ptake n i1 with
    | .error e => .error e
    | .ok (rem, payload) => .ok (rem, IString.literal payload)

/-- Modelled from the spec: `string = quoted / literal`. -/
def stringP : Parser IString := alt2 quoted literal

/-- Modelled from the spec: the `NIL` keyword (case-insensitive). -/
def nil : Parser (List Char) := ptagNoCase ( "NIL" ).data

/-- Modelled from the spec: `nstring = NIL / string`. -/
def nstring : Parser NStringV :=
  alt2 (pvalue none nil) (pmap stringP Option.some)

/-- Modelled from the spec: the `atom` lexer (one or more atom chars). -/
def atom : Parser (List Char) := take_while1 isAtomChar

/-- Modelled from the spec: the `text` lexer (one or more text chars). -/
def text : Parser (List Char) := take_while1 isTextChar

/-- An `AString` is an atom-like token or a string. -/
inductive AString where
  | atom (s : List Char)
  | string (s : IString)
  deriving DecidableEq, Repr

/-- Raw bytes of an `AString`. -/
def AString.bytes : AString → List Char
  | .atom s => s
  | .string s => s.bytes

/-- Modelled from the spec: `astring = 1*ASTRING-CHAR / string`. -/
def astring : Parser AString :=
  alt2 (pmap (take_while1 isAstringChar) AString.atom) (pmap stringP AString.string)

/-! The sequence-set domain, from `src/types/sequence.rs`. -/

/-- A sequence number: a concrete value or the star standing for the
largest number in use (`SeqNo` in `types/sequence.rs`). -/
inductive SeqNo where
  | value (n : Nat)
  | largest
  deriving DecidableEq, Repr

/-- One entry of a sequence set (`Sequence` in `types/sequence.rs`). -/
inductive Sequence where
  | single (s : SeqNo)
  | range (from_ to_ : SeqNo)
  deriving DecidableEq, Repr

/-- Decimal digits of a positive number, most significant first; the fuel is
an upper bound on the recursion depth and `n` itself always suffices. -/
def natDigitsAux : Nat → Nat → List Char
  | 0, _ => []
  | fuel + 1, n =>
    if n = 0 then []
    else natDigitsAux fuel (n / 10) ++ [Char.ofNat (48 + n % 10)]

/-- Decimal representation of a number, as Rust's `u32::to_string`. -/
def encodeNat (n : Nat) : List Char :=
  if n = 0 then [ '0' ] else natDigitsAux n n

/-- Encoder for `SeqNo` (from `types/sequence.rs`). -/
def SeqNo.encode : SeqNo → List Char
  | .value n => encodeNat n
  | .largest => [ '*' ]

/-- Encoder for `Sequence` (from `types/sequence.rs`). -/
def Sequence.encode : Sequence → List Char
  | .single s => s.encode
  | .range f t => f.encode ++ ':' :: t.encode

/-- Modelled from the spec (the `sequence_set` parser of `parse/sequence.rs`
is not under `src/`): `seq-number = nz-number / "*"`. -/
def seq_number : Parser SeqNo :=
  alt2 (pmap nz_number SeqNo.value) (pvalue SeqNo.largest (ptag [ '*' ]))

/-- Modelled from the spec: `seq-range = seq-number ":" seq-number`; the
authored endpoint order is preserved. -/
def seq_range : Parser Sequence :=
  pmap (pseq seq_number (pseq (ptag [ ':' ]) seq_number))
    (fun x => Sequence.range x.1 x.2.2)

/-- Modelled from the spec: one entry of `seq-set`; the range alternative is
tried first so that `1:2` parses as a range, matching the crate's tests. -/
def sequence_item : Parser Sequence :=
  alt2 seq_range (pmap seq_number Sequence.single)

/-- Modelled from the spec: `seq-set = (seq-number / seq-range) *("," ...)`,
as a streaming comma-separated list. -/
def sequence_set : Parser (List Sequence) :=
  separated_list1 (ptag [ ',' ]) sequence_item

/-- The textual `ToSequence` entry point (from `types/sequence.rs`): run the
streaming parser against the input extended by the sentinel byte and require
exactly the sentinel to remain. -/
def toSequence (s : List Char) : Except Unit (List Sequence) :=
  match sequence_set (s ++ [ '|' ]) with
  | .ok (rem, v) => if rem = [ '|' ] then .ok v else .error ()
  | .error _ => .error ()

/-- A `SeqNo` the parser can produce: concrete values come from `nz-number`,
so they lie in the interval from 1 to 2 to the 32nd minus 1. -/
def SeqNo.wf : SeqNo → Prop
  | .value n => 0 < n ∧ n < 4294967296
  | .largest => True

/-- A `Sequence` the parser can produce. -/
def Sequence.wf : Sequence → Prop
  | .single s => s.wf
  | .range f t => f.wf ∧ t.wf

/-! General lemmas about the combinators. -/

theorem takeWhileAux_append (f : Char → Bool) :
    ∀ (s : List Char) (r : Char) (rs : List Char),
      (∀ c ∈ s, f c = true) → f r = false →
      takeWhileAux f (s ++ r :: rs) = some (s, r :: rs) := by
  intro s
  induction s with
  | nil => intro r rs _ hr; simp [takeWhileAux, hr]
  | cons c cs ih =>
      intro r rs hall hr
      have hc : f c = true := hall c (by simp)
      have := ih r rs (fun d hd => hall d (by simp [hd])) hr
      simp [takeWhileAux, hc, this]

theorem take_while1_append (f : Char → Bool) (s : List Char) (r : Char) (rs : List Char)
    (hs : s ≠ []) (hall : ∀ c ∈ s, f c = true) (hr : f r = false) :
    take_while1 f (s ++ r :: rs) = .ok (r :: rs, s) := by
  cases s with
  | nil => exact absurd rfl hs
  | cons c cs =>
      have h := takeWhileAux_append f (c :: cs) r rs hall hr
      simp only [List.cons_append] at h ⊢
      simp [take_while1, h]

theorem take_while_append (f : Char → Bool) (s : List Char) (r : Char) (rs : List Char)
    (hall : ∀ c ∈ s, f c = true) (hr : f r = false) :
    take_while f (s ++ r :: rs) = .ok (r :: rs, s) := by
  simp [take_while, takeWhileAux_append f s r rs hall hr]

theorem tagAux_eq_self : ∀ (t rest : List Char),
    tagAux (fun a b => a == b) t (t ++ rest) = .ok rest := by
  intro t
  induction t with
  | nil => intro rest; simp [tagAux]
  | cons c cs ih => intro rest; simp [tagAux, ih]

theorem ptag_self (t rest : List Char) : ptag t (t ++ rest) = .ok (rest, t) := by
  simp [ptag, tagAux_eq_self]

theorem tagAux_lower_self : ∀ (t rest : List Char),
    tagAux (fun a b => lowerChar a == lowerChar b) t (t ++ rest) = .ok rest := by
  intro t
  induction t with
  | nil => intro rest; simp [tagAux]
  | cons c cs ih => intro rest; simp [tagAux, ih]

theorem ptagNoCase_self (t rest : List Char) :
    ptagNoCase t (t ++ rest) = .ok (rest, t) := by
  simp [ptagNoCase, tagAux_lower_self]

theorem ptag_mismatch (c d : Char) (cs : List Char) (i : Input)
    (hne : ¬ (c == d) = true) :
    ptag (c :: cs) (d :: i) = .error (.recoverable .tagKind) := by
  simp [ptag, tagAux, hne]

theorem ptagNoCase_mismatch (c d : Char) (cs : List Char) (i : Input)
    (hne : ¬ (lowerChar c == lowerChar d) = true) :
    ptagNoCase (c :: cs) (d :: i) = .error (.recoverable .tagKind) := by
  simp [ptagNoCase, tagAux, hne]

/-! Decimal encoding facts, towards the sequence-set round trip. -/

theorem digitsToNat_append_one (ds : List Char) (c : Char) :
    digitsToNat (ds ++ [c]) = 10 * digitsToNat ds + (c.toNat - 48) := by
  simp [digitsToNat, List.foldl_append]

theorem digitChar_isDigit (m : Nat) (hm : m < 10) :
    isDigit (Char.ofNat (48 + m)) = true := by
  interval_cases m <;> decide

theorem digitChar_toNat (m : Nat) (hm : m < 10) :
    (Char.ofNat (48 + m)).toNat = 48 + m := by
  interval_cases m <;> decide

theorem digitChar_ne_zero (m : Nat) (hm : m < 10) (h0 : m ≠ 0) :
    Char.ofNat (48 + m) ≠ '0' := by
  interval_cases m
  · exact absurd rfl h0
  all_goals decide

theorem natDigitsAux_zero (fuel : Nat) : natDigitsAux fuel 0 = [] := by
  cases fuel <;> simp [natDigitsAux]

theorem natDigitsAux_spec : ∀ (fuel n : Nat), 0 < n → n ≤ fuel →
    (natDigitsAux fuel n ≠ [] ∧
     (∀ c ∈ natDigitsAux fuel n, isDigit c = true) ∧
     (natDigitsAux fuel n).head? ≠ some '0' ∧
     digitsToNat (natDigitsAux fuel n) = n) := by
  intro fuel
  induction fuel with
  | zero => intro n hn hle; omega
  | succ fuel ih =>
      intro n hn hle
      have hmod : n % 10 < 10 := Nat.mod_lt _ (by omega)
      by_cases hsmall : n < 10
      · have hdiv : n / 10 = 0 := Nat.div_eq_of_lt hsmall
        have hmodn : n % 10 = n := Nat.mod_eq_of_lt hsmall
        simp only [natDigitsAux, if_neg (by omega : ¬ n = 0), hdiv, natDigitsAux_zero]
        simp [hmodn, digitsToNat,
          digitChar_isDigit n hsmall, digitChar_toNat n hsmall,
          digitChar_ne_zero n hsmall (by omega)]
      · have hdivpos : 0 < n / 10 := Nat.div_pos (by omega) (by omega)
        have hdivle : n / 10 ≤ fuel := by
          have := Nat.div_lt_self hn (by omega : 1 < 10)
          omega
        obtain ⟨hne, hdig, hhead, hval⟩ := ih (n / 10) hdivpos hdivle
        simp only [natDigitsAux, if_neg (by omega : ¬ n = 0)]
        refine ⟨by simp, ?_, ?_, ?_⟩
        · intro c hc
          rcases List.mem_append.mp hc with h | h
          · exact hdig c h
          · simp at h; subst h; exact digitChar_isDigit _ hmod
        · cases hd : natDigitsAux fuel (n / 10) with
          | nil => exact absurd hd hne
          | cons d ds => simp [hd] at hhead ⊢; exact hhead
        · rw [digitsToNat_append_one, hval, digitChar_toNat _ hmod]
          omega

theorem encodeNat_spec (n : Nat) (hn : 0 < n) :
    (encodeNat n ≠ [] ∧
     (∀ c ∈ encodeNat n, isDigit c = true) ∧
     (encodeNat n).head? ≠ some '0' ∧
     digitsToNat (encodeNat n) = n) := by
  unfold encodeNat
  rw [if_neg (by omega : ¬ n = 0)]
  exact natDigitsAux_spec n n hn le_rfl

theorem nz_number_encode (n : Nat) (r : Char) (rs : List Char)
    (hn : 0 < n) (hlt : n < 4294967296) (hr : isDigit r = false) :
    nz_number (encodeNat n ++ r :: rs) = .ok (r :: rs, n) := by
  obtain ⟨hne, hdig, hhead, hval⟩ := encodeNat_spec n hn
  simp [nz_number, take_while1_append isDigit (encodeNat n) r rs hne hdig hr,
    hhead, hval, hlt]

theorem seq_number_encode (s : SeqNo) (r : Char) (rs : List Char)
    (hwf : s.wf) (hr : isDigit r = false) :
    seq_number (s.encode ++ r :: rs) = .ok (r :: rs, s) := by
  cases s with
  | value n =>
      obtain ⟨hn, hlt⟩ := hwf
      simp [seq_number, alt2, pmap, SeqNo.encode, nz_number_encode n r rs hn hlt hr]
  | largest =>
      simp [seq_number, alt2, pmap, pvalue, SeqNo.encode, nz_number, take_while1,
        takeWhileAux, isDigit, ptag, tagAux]

theorem sequence_item_encode (v : Sequence) (r : Char) (rs : List Char)
    (hwf : v.wf) (hr : isDigit r = false) (hc : r ≠ ':') :
    sequence_item (v.encode ++ r :: rs) = .ok (r :: rs, v) := by
  cases v with
  | single s =>
      have hs := seq_number_encode s r rs hwf hr
      have htag : ptag [ ':' ] (r :: rs) = .error (.recoverable .tagKind) :=
        ptag_mismatch ':' r [] rs (by simp [Ne.symm hc])
      simp [sequence_item, seq_range, alt2, pmap, pseq, Sequence.encode, hs, htag]
  | range f t =>
      obtain ⟨hf, ht⟩ := hwf
      have h1 : seq_number (f.encode ++ ':' :: (t.encode ++ r :: rs)) =
          .ok (':' :: (t.encode ++ r :: rs), f) :=
        seq_number_encode f ':' (t.encode ++ r :: rs) hf (by decide)
      have h2 : seq_number (t.encode ++ r :: rs) = .ok (r :: rs, t) :=
        seq_number_encode t r rs ht hr
      have htag : ptag [ ':' ] (':' :: (t.encode ++ r :: rs)) =
          .ok (t.encode ++ r :: rs, [ ':' ]) := ptag_self [ ':' ] (t.encode ++ r :: rs)
      simp [sequence_item, seq_range, alt2, pmap, pseq, Sequence.encode, h1, h2, htag]

/-- Claim C1, counterexample: the sequence-set parser is streaming, so on the
bare encoder output for the value `1` it reports `Incomplete` (more digits
could follow) rather than returning the value with an empty remainder. -/
theorem seq_roundtrip_counterexample :
    sequence_set (Sequence.encode (Sequence.single (SeqNo.value 1))) = .error PErr.incomplete ∧
    sequence_set (Sequence.encode (Sequence.single (SeqNo.value 1))) ≠
      .ok ([], [Sequence.single (SeqNo.value 1)]) := by
  decide

/-- Claim C1, amended: for every `Sequence` value the parser can produce,
running the streaming sequence-set parser on the encoder's output extended by
the sentinel byte yields exactly that value with exactly the sentinel
remaining; equivalently, `to_sequence` of the encoding succeeds with it. -/
theorem seq_roundtrip (v : Sequence) (hwf : v.wf) :
    sequence_set (v.encode ++ [ '|' ]) = .ok ([ '|' ], [v]) ∧
    toSequence v.encode = .ok [v] := by
  have hitem : sequence_item (v.encode ++ '|' :: []) = .ok ([ '|' ], v) :=
    sequence_item_encode v '|' [] hwf (by decide) (by decide)
  have hset : sequence_set (v.encode ++ [ '|' ]) = .ok ([ '|' ], [v]) := by
    simp only [sequence_set, separated_list1]
    rw [show v.encode ++ [ '|' ] = v.encode ++ '|' :: [] from rfl, hitem]
    simp [sepList1Aux, ptag, tagAux]
  exact ⟨hset, by simp [toSequence, hset]⟩

/-- Claim C1, witness: the round trip evaluated at the range from 1 to star. -/
theorem seq_roundtrip_witness :
    sequence_set (Sequence.encode (Sequence.range (SeqNo.value 1) SeqNo.largest) ++ [ '|' ]) =
      .ok ([ '|' ], [Sequence.range (SeqNo.value 1) SeqNo.largest]) ∧
    toSequence (Sequence.encode (Sequence.range (SeqNo.value 1) SeqNo.largest)) =
      .ok [Sequence.range (SeqNo.value 1) SeqNo.largest] :=
  seq_roundtrip (Sequence.range (SeqNo.value 1) SeqNo.largest) (by constructor <;> simp [SeqNo.wf])

/-- Claim C7: the textual `to_sequence` succeeds with a value exactly when
the streaming sequence-set parser on the input extended by the sentinel
returns that value with exactly the sentinel remaining; otherwise it errors. -/
theorem toSequence_spec (s : List Char) (v : List Sequence) :
    (toSequence s = .ok v ↔ sequence_set (s ++ [ '|' ]) = .ok ([ '|' ], v)) ∧
    ((∀ w, sequence_set (s ++ [ '|' ]) ≠ .ok ([ '|' ], w)) → toSequence s = .error ()) := by
  constructor
  · constructor
    · intro h
      unfold toSequence at h
      cases hseq : sequence_set (s ++ [ '|' ]) with
      | error e => rw [hseq] at h; exact absurd h (by simp)
      | ok p =>
          obtain ⟨rem, w⟩ := p
          rw [hseq] at h
          by_cases hrem : rem = [ '|' ]
          · subst hrem; simp at h; subst h; rfl
          · simp [hrem] at h
    · intro h
      unfold toSequence
      rw [h]
      simp
  · intro h
    unfold toSequence
    cases hseq : sequence_set (s ++ [ '|' ]) with
    | error e => rfl
    | ok p =>
        obtain ⟨rem, w⟩ := p
        by_cases hrem : rem = [ '|' ]
        · subst hrem; exact absurd hseq (h w)
        · simp [hrem]

/-- Claim C7, witness: evaluated at the input `1`. -/
theorem toSequence_spec_witness :
    toSequence [ '1' ] = .ok [Sequence.single (SeqNo.value 1)] :=
  (toSequence_spec [ '1' ] [Sequence.single (SeqNo.value 1)]).1.mpr (by decide)

/-! The response grammar, from `imap-codec/src/response.rs`.  The value
types it returns live in `imap-types`, which is not under `src/` except for
`fetch.rs`; they are modelled from the spec's data model (section 3). -/

/-- Modelled from the spec: a charset is an atom or a quoted string. -/
inductive Charset where
  | atom (s : List Char)
  | quoted (s : List Char)
  deriving DecidableEq, Repr

/-- Modelled from the spec: the `charset` lexer. -/
def charset : Parser Charset :=
  alt2 (pmap atom Charset.atom) (pmap quoted (fun i => Charset.quoted i.bytes))

/-- Modelled from the spec (section 4.4): a flag value. -/
inductive FlagV where
  | seen
  | answered
  | flagged
  | deleted
  | draft
  | extension (s : List Char)
  | keyword (s : List Char)
  deriving DecidableEq, Repr

/-- Modelled from the spec: recognise the system flags case-insensitively;
an unknown backslash-prefixed atom is an extension flag. -/
def systemFlagOfAtom (s : List Char) : FlagV :=
  if lowerStr s = ( "seen" ).data then .seen
  else if lowerStr s = ( "answered" ).data then .answered
  else if lowerStr s = ( "flagged" ).data then .flagged
  else if lowerStr s = ( "deleted" ).data then .deleted
  else if lowerStr s = ( "draft" ).data then .draft
  else .extension s

/-- Modelled from the spec: `flag = "\" atom / atom` (keyword). -/
def flag : Parser FlagV :=
  alt2 (pmap (preceded (ptag [ '\\' ]) atom) systemFlagOfAtom) (pmap atom FlagV.keyword)

/-- Modelled from the spec: `flag-perm` additionally permits a backslash
star. -/
inductive FlagPerm where
  | flag (f : FlagV)
  | asterisk
  deriving DecidableEq, Repr

/-- Modelled from the spec: the `flag-perm` parser. -/
def flag_perm : Parser FlagPerm :=
  alt2 (pvalue FlagPerm.asterisk (ptag [ '\\', '*' ])) (pmap flag FlagPerm.flag)

/-- Modelled from the spec: a capability; the name IMAP4rev1 is recognised
case-insensitively, any other atom is kept as it is. -/
inductive Capability where
  | imap4rev1
  | other (s : List Char)
  deriving DecidableEq, Repr

/-- Modelled from the spec: the conversion of an atom to a `Capability`. -/
def capabilityFrom (s : List Char) : Capability :=
  if lowerStr s = ( "imap4rev1" ).data then .imap4rev1 else .other s

/-- Parser `capability = atom` converted to the `Capability` type, from
`response.rs`. -/
def capability : Parser Capability := pmap atom capabilityFrom

/-- The `NonEmptyVec` of `imap-types`: `unvalidated` wraps a list without
any check, so the model is a bare list wrapper. -/
structure NonEmptyVec (α : Type) where
  items : List α
  deriving DecidableEq, Repr

/-- Parser `capability-data` from `response.rs`: the keyword CAPABILITY, a
space, then a space-separated nonempty list of capabilities.  The ABNF's
demand that IMAP4rev1 be present is not enforced. -/
def capability_data : Parser (NonEmptyVec Capability) := fun i =>
  match (pseq (ptagNoCase [ 'C', 'A', 'P', 'A', 'B', 'I', 'L', 'I', 'T', 'Y' ])
          (pseq sp (separated_list1 sp capability))) i with
  | .error e => .error e
  | .ok (rem, (_, (_, caps))) => .ok (rem, NonEmptyVec.mk caps)

/-- Modelled from the spec: the resp-text `Code` variants. -/
inductive Code where
  | alert
  | badCharset (allowed : List Charset)
  | capability (caps : NonEmptyVec Capability)
  | parse
  | permanentFlags (flags : List FlagPerm)
  | readOnly
  | readWrite
  | tryCreate
  | uidNext (n : Nat)
  | uidValidity (n : Nat)
  | unseen (n : Nat)
  | compressionActive
  | overQuota
  | tooBig
  | other (raw : List Char)
  deriving DecidableEq, Repr

/-- Parser `resp-text-code` from `response.rs`: the alternation over the
known codes, in source order; there is no atom fallback here (the fallback
to `Code::Other` lives in `resp_text`). -/
def resp_text_code : Parser Code :=
  alt2 (pvalue Code.alert (ptagNoCase ( "ALERT" ).data))
  (alt2 (pmap (pseq (ptagNoCase ( "BADCHARSET" ).data)
          (popt (preceded sp
            (delimited (ptag [ '(' ]) (separated_list1 sp charset) (ptag [ ')' ])))))
        (fun x => Code.badCharset (x.2.getD [])))
  (alt2 (pmap capability_data Code.capability)
  (alt2 (pvalue Code.parse (ptagNoCase ( "PARSE" ).data))
  (alt2 (pmap (pseq (ptagNoCase ( "PERMANENTFLAGS" ).data)
          (pseq sp (delimited (ptag [ '(' ])
            (pmap (popt (separated_list1 sp flag_perm)) (fun mf => mf.getD []))
            (ptag [ ')' ]))))
        (fun x => Code.permanentFlags x.2.2))
  (alt2 (pvalue Code.readOnly (ptagNoCase ( "READ-ONLY" ).data))
  (alt2 (pvalue Code.readWrite (ptagNoCase ( "READ-WRITE" ).data))
  (alt2 (pvalue Code.tryCreate (ptagNoCase ( "TRYCREATE" ).data))
  (alt2 (pmap (pseq (ptagNoCase ( "UIDNEXT" ).data) (pseq sp nz_number))
        (fun x => Code.uidNext x.2.2))
  (alt2 (pmap (pseq (ptagNoCase ( "UIDVALIDITY" ).data) (pseq sp nz_number))
        (fun x => Code.uidValidity x.2.2))
  (alt2 (pmap (pseq (ptagNoCase ( "UNSEEN" ).data) (pseq sp nz_number))
        (fun x => Code.unseen x.2.2))
  (alt2 (pvalue Code.compressionActive (ptagNoCase ( "COMPRESSIONACTIVE" ).data))
  (alt2 (pvalue Code.overQuota (ptagNoCase ( "OVERQUOTA" ).data))
        (pvalue Code.tooBig (ptagNoCase ( "TOOBIG" ).data))))))))))))))

/-- Character class of the `Code::Other` fallback in `resp_text`: anything
but the closing bracket, CR and LF. -/
def respOtherChar (b : Char) : Bool := b ≠ ']' && b ≠ '\r' && b ≠ '\n'

/-- Parser `resp-text` from `response.rs`.  When the input starts with a
bracket, a code must be parsed (never reinterpreted as text); an unknown
bracketed content becomes `Code::Other` verbatim.  The compile-time feature
`quirk_missing_text` is the boolean parameter: with it, a missing
space-and-text tail right before CRLF is replaced by the placeholder dots. -/
def resp_text (quirkMissingText : Bool) : Parser (Option Code × List Char) := fun input =>
  match popt (ptag [ '[' ]) input with
  | .error e => .error e
  | .ok (_, start) =>
    if start.isSome then
      (pseq
        (preceded (ptag [ '[' ])
          (pmap
            (alt2 (terminated resp_text_code (ptag [ ']' ]))
              (pmap (terminated (take_while respOtherChar) (ptag [ ']' ])) Code.other))
            Option.some))
        (if quirkMissingText then
          alt2 (preceded sp text) (pmap (ppeek crlf) (fun _ => ( "..." ).data))
        else preceded sp text)) input
    else pmap text (fun t => (none, t)) input

/-- Base64 alphabet value of one character. -/
def b64val (c : Char) : Option Nat :=
  if 65 ≤ c.toNat ∧ c.toNat ≤ 90 then some (c.toNat - 65)
  else if 97 ≤ c.toNat ∧ c.toNat ≤ 122 then some (c.toNat - 97 + 26)
  else if 48 ≤ c.toNat ∧ c.toNat ≤ 57 then some (c.toNat - 48 + 52)
  else if c = '+' then some 62
  else if c = '/' then some 63
  else none

/-- Modelled from the spec: canonical RFC 4648 base64 decoding, as the
`base64` crate's STANDARD engine: four-character quanta, correct `=`
padding only at the end, and zero trailing bits. -/
def b64decode : List Char → Option (List Nat)
  | [] => some []
  | c1 :: c2 :: c3 :: c4 :: rest =>
    match b64val c1, b64val c2 with
    | some v1, some v2 =>
      if c3 = '=' then
        if c4 = '=' ∧ rest = [] then
          if v2 % 16 = 0 then some [v1 * 4 + v2 / 16] else none
        else none
      else
        match b64val c3 with
        | some v3 =>
          if c4 = '=' then
            if rest = [] then
              if v3 % 4 = 0 then some [v1 * 4 + v2 / 16, (v2 % 16) * 16 + v3 / 4]
              else none
            else none
          else
            match b64val c4 with
            | some v4 =>
              (b64decode rest).map
                (fun bs =>
                  (v1 * 4 + v2 / 16) :: ((v2 % 16) * 16 + v3 / 4) :: ((v3 % 4) * 64 + v4) :: bs)
            | none => none
        | none => none
    | _, _ => none
  | _ => none

/-- Find the first CR LF pair: the bytes before it and the remainder
starting at the CR.  `none` when no CR LF occurs. -/
def findCRLF : Input → Option (List Char × Input)
  | [] => none
  | c :: rest =>
    if c = '\r' ∧ rest.head? = some '\n' then some ([], c :: rest)
    else
      match findCRLF rest with
      | none => none
      | some (pre, suf) => some (c :: pre, suf)

/-- Combinator `take_until` specialised to the CR LF pattern (streaming:
`Incomplete` until the pattern appears); the pattern is not consumed. -/
def takeUntilCRLF : Parser (List Char) := fun i =>
  match findCRLF i with
  | none => .error .incomplete
  | some (pre, suf) => .ok (suf, pre)

/-- Modelled from the spec: a continuation request is either decoded base64
data or a basic resp-text. -/
inductive CommandContinuationRequest where
  | base64 (data : List Nat)
  | basic (code : Option Code) (t : List Char)
  deriving DecidableEq, Repr

/-- Parser `continue-req` from `response.rs` (default build): plus and
space, then either the whole line decoded as base64, or resp-text; CRLF
closes the line.  The base64 alternative is tried first and wins exactly
when the whole line content decodes. -/
def continue_req : Parser CommandContinuationRequest :=
  pmap (pseq (ptag [ '+', ' ' ])
        (pseq (alt2 (pmap (pmapRes takeUntilCRLF b64decode) CommandContinuationRequest.base64)
                    (pmap (resp_text false) (fun x => CommandContinuationRequest.basic x.1 x.2)))
              crlf))
    (fun x => x.2.1)

/-! Lemmas and claim theorems for the response grammar. -/

theorem pmap_ok {α β : Type} {p : Parser α} {f : α → β} {i i1 : Input} {a : α}
    (hp : p i = .ok (i1, a)) : pmap p f i = .ok (i1, f a) := by
  simp [pmap, hp]

theorem pmap_err {α β : Type} {p : Parser α} {f : α → β} {i : Input} {e : PErr}
    (hp : p i = .error e) : pmap p f i = .error e := by
  simp [pmap, hp]

theorem pseq_ok {α β : Type} {p : Parser α} {q : Parser β} {i i1 i2 : Input}
    {a : α} {b : β} (hp : p i = .ok (i1, a)) (hq : q i1 = .ok (i2, b)) :
    pseq p q i = .ok (i2, (a, b)) := by
  simp [pseq, hp, hq]

theorem pseq_err1 {α β : Type} {p : Parser α} {q : Parser β} {i : Input} {e : PErr}
    (hp : p i = .error e) : pseq p q i = .error e := by
  simp [pseq, hp]

theorem pseq_err2 {α β : Type} {p : Parser α} {q : Parser β} {i i1 : Input}
    {a : α} {e : PErr} (hp : p i = .ok (i1, a)) (hq : q i1 = .error e) :
    pseq p q i = .error e := by
  simp [pseq, hp, hq]

theorem preceded_ok {α β : Type} {p : Parser α} {q : Parser β} {i i1 i2 : Input}
    {a : α} {b : β} (hp : p i = .ok (i1, a)) (hq : q i1 = .ok (i2, b)) :
    preceded p q i = .ok (i2, b) := by
  simp [preceded, pseq, pmap, hp, hq]

theorem terminated_ok {α β : Type} {p : Parser α} {q : Parser β} {i i1 i2 : Input}
    {a : α} {b : β} (hp : p i = .ok (i1, a)) (hq : q i1 = .ok (i2, b)) :
    terminated p q i = .ok (i2, a) := by
  simp [terminated, pseq, pmap, hp, hq]

theorem alt2_first_ok {α : Type} {p q : Parser α} {i i1 : Input} {a : α}
    (hp : p i = .ok (i1, a)) : alt2 p q i = .ok (i1, a) := by
  simp [alt2, hp]

theorem alt2_second {α : Type} {p q : Parser α} {i : Input} {k : ErrKind}
    (hp : p i = .error (.recoverable k)) : alt2 p q i = q i := by
  simp [alt2, hp]

theorem pseq_ok_first {α β : Type} (p : Parser α) (q : Parser β) (i rem : Input)
    (v : α × β) (h : pseq p q i = .ok (rem, v)) : ∃ i1, p i = .ok (i1, v.1) := by
  obtain ⟨v1, v2⟩ := v
  cases hp : p i with
  | error e => simp [pseq, hp] at h
  | ok p1 =>
      obtain ⟨i1, a⟩ := p1
      cases hq : q i1 with
      | error e => simp [pseq, hp, hq] at h
      | ok p2 =>
          obtain ⟨i2, b⟩ := p2
          simp [pseq, hp, hq] at h
          exact ⟨i1, by simp [h.2.1]⟩

theorem preceded_pmap_some {α β : Type} (q : Parser β) (p : Parser α) (i r : Input)
    (v : Option α) (h : preceded q (pmap p Option.some) i = .ok (r, v)) : v.isSome := by
  cases hq : q i with
  | error e => simp [preceded, pseq, pmap, hq] at h
  | ok p1 =>
      obtain ⟨i1, _⟩ := p1
      cases hp : p i1 with
      | error e => simp [preceded, pseq, pmap, hq, hp] at h
      | ok p2 =>
          obtain ⟨i2, a⟩ := p2
          simp [preceded, pseq, pmap, hq, hp] at h
          rw [← h.2]
          rfl

/-- Claim C6: without the missing-text quirk, `resp_text` rejects a
bracketed code immediately followed by CRLF; with the quirk it succeeds and
fabricates the placeholder text of three dots. -/
theorem resp_text_missing_text_quirk :
    resp_text false ( "[IMAP4rev1]\r\n" ).data = .error (.recoverable .tagKind) ∧
    resp_text true ( "[IMAP4rev1]\r\n" ).data =
      .ok ([ '\r', '\n' ], (some (Code.other ( "IMAP4rev1" ).data), ( "..." ).data)) := by
  decide

/-- Claim C10: even with the missing-text quirk, `resp_text` rejects a
bracketed code followed by a space and then CRLF: the placeholder applies
only when CRLF immediately follows the closing bracket. -/
theorem resp_text_quirk_space_no_text :
    resp_text true ( "[IMAP4rev1] \r\n" ).data = .error (.recoverable .tagKind) ∧
    resp_text true ( "[IMAP4rev1]  \r\n" ).data =
      .ok ([ '\r', '\n' ], (some (Code.other ( "IMAP4rev1" ).data), [ ' ' ])) := by
  decide

/-- Claim C4: when the input starts with a bracket, `resp_text` commits to
parsing a code (a success never carries an absent code), and when the
bracketed content matches no known resp-text-code the bytes between the
brackets are captured verbatim as `Code.other`. -/
theorem resp_text_bracket_code :
    (∀ (q : Bool) (input rem : Input) (c : Option Code) (t : List Char),
        input.head? = some '[' → resp_text q input = .ok (rem, (c, t)) → c.isSome) ∧
    (∀ (content tc rest : Input),
        (∀ b ∈ content, respOtherChar b = true) →
        (∃ k, (terminated resp_text_code (ptag [ ']' ]))
            (content ++ ']' :: ' ' :: (tc ++ '\r' :: '\n' :: rest)) =
            .error (.recoverable k)) →
        tc ≠ [] → (∀ b ∈ tc, isTextChar b = true) →
        resp_text false ('[' :: (content ++ ']' :: ' ' :: (tc ++ '\r' :: '\n' :: rest))) =
          .ok ('\r' :: '\n' :: rest, (some (Code.other content), tc))) := by
  constructor
  · intro q input rem c t hhead hok
    obtain ⟨tail, rfl⟩ : ∃ tail, input = '[' :: tail := by
      cases input with
      | nil => simp at hhead
      | cons x xs => simp at hhead; exact ⟨xs, by rw [hhead]⟩
    simp only [resp_text] at hok
    have hpop : popt (ptag [ '[' ]) ('[' :: tail) = .ok (tail, some [ '[' ]) := by
      simp [popt, ptag, tagAux]
    rw [hpop] at hok
    simp only [Option.isSome_some, if_true] at hok
    obtain ⟨i1, hfirst⟩ := pseq_ok_first _ _ _ _ _ hok
    exact preceded_pmap_some _ _ _ _ _ hfirst
  · intro content tc rest hcontent hfail htc1 htc2
    obtain ⟨k, hk⟩ := hfail
    have h2 : take_while respOtherChar (content ++ ']' :: (' ' :: (tc ++ '\r' :: '\n' :: rest))) =
        .ok (']' :: ' ' :: (tc ++ '\r' :: '\n' :: rest), content) :=
      take_while_append _ content ']' _ hcontent (by decide)
    have h4 : text (tc ++ '\r' :: ('\n' :: rest)) = .ok ('\r' :: '\n' :: rest, tc) :=
      take_while1_append isTextChar tc '\r' ('\n' :: rest) htc1 htc2 (by decide)
    have htag : ptag [ ']' ] (']' :: (' ' :: (tc ++ '\r' :: '\n' :: rest))) =
        .ok (' ' :: (tc ++ '\r' :: '\n' :: rest), [ ']' ]) :=
      ptag_self [ ']' ] (' ' :: (tc ++ '\r' :: '\n' :: rest))
    have h5 := pmap_ok (f := Code.other) (terminated_ok h2 htag)
    have h6 := (alt2_second
      (q := pmap (terminated (take_while respOtherChar) (ptag [ ']' ])) Code.other) hk).trans h5
    have hA := pmap_ok (f := Option.some) h6
    have hopen : ptag [ '[' ] ('[' :: (content ++ ']' :: ' ' :: (tc ++ '\r' :: '\n' :: rest))) =
        .ok (content ++ ']' :: ' ' :: (tc ++ '\r' :: '\n' :: rest), [ '[' ]) :=
      ptag_self [ '[' ] (content ++ ']' :: ' ' :: (tc ++ '\r' :: '\n' :: rest))
    have hAA := preceded_ok hopen hA
    have hspc : sp (' ' :: (tc ++ '\r' :: '\n' :: rest)) =
        .ok (tc ++ '\r' :: '\n' :: rest, [ ' ' ]) :=
      ptag_self [ ' ' ] (tc ++ '\r' :: '\n' :: rest)
    have hB := preceded_ok hspc h4
    have hpop : popt (ptag [ '[' ])
        ('[' :: (content ++ ']' :: ' ' :: (tc ++ '\r' :: '\n' :: rest))) =
        .ok (content ++ ']' :: ' ' :: (tc ++ '\r' :: '\n' :: rest), some [ '[' ]) := by
      simp [popt, hopen]
    have hfinal := pseq_ok hAA hB
    simp [resp_text, hpop]
    exact hfinal

/-- Claim C4, witness: an unknown code with a text tail, evaluated. -/
theorem resp_text_bracket_code_witness :
    resp_text false ( "[XFOO] hi\r\n" ).data =
      .ok ([ '\r', '\n' ], (some (Code.other ( "XFOO" ).data), ( "hi" ).data)) := by
  have h := resp_text_bracket_code.2 ( "XFOO" ).data ( "hi" ).data []
    (by decide) ⟨ErrKind.tagKind, by decide⟩ (by decide) (by decide)
  exact h

theorem findCRLF_append : ∀ (content rest : Input), '\r' ∉ content →
    findCRLF (content ++ '\r' :: '\n' :: rest) = some (content, '\r' :: '\n' :: rest) := by
  intro content
  induction content with
  | nil => intro rest _; simp [findCRLF]
  | cons c cs ih =>
      intro rest hmem
      have hc : c ≠ '\r' := fun h => hmem (by simp [h])
      simp [findCRLF, hc, ih rest (fun h => hmem (by simp [h]))]

/-- Claim C3, counterexample: for the line content left bracket then x the
content is not valid base64, yet the parser does not return the Basic
variant either: resp-text itself fails on that content, so the whole parse
fails. -/
theorem continue_req_counterexample :
    b64decode ( "[x" ).data = none ∧
    continue_req ( "+ [x\r\n" ).data = .error (.recoverable .tagKind) ∧
    (∀ (r : Input) (v : CommandContinuationRequest), continue_req ( "+ [x\r\n" ).data ≠ .ok (r, v)) := by
  refine ⟨by decide, by decide, ?_⟩
  intro r v h
  rw [show continue_req ( "+ [x\r\n" ).data = .error (.recoverable .tagKind) from by decide] at h
  exact absurd h (by simp)

/-- Claim C3, amended: on a continuation line, the Base64 variant is
returned exactly when the whole line content is valid base64; otherwise the
content is parsed as resp-text and, when that succeeds consuming the content
up to CRLF, the Basic variant is returned (when resp-text also fails, the
parse fails rather than producing a Basic variant). -/
theorem continue_req_spec (content rest : Input) (hcr : '\r' ∉ content) :
    (∀ bs, b64decode content = some bs →
      continue_req ('+' :: ' ' :: (content ++ '\r' :: '\n' :: rest)) = .ok (rest, .base64 bs)) ∧
    (b64decode content = none →
      ∀ c t, resp_text false (content ++ '\r' :: '\n' :: rest) =
          .ok ('\r' :: '\n' :: rest, (c, t)) →
      continue_req ('+' :: ' ' :: (content ++ '\r' :: '\n' :: rest)) = .ok (rest, .basic c t)) ∧
    (∀ r bs, continue_req ('+' :: ' ' :: (content ++ '\r' :: '\n' :: rest)) = .ok (r, .base64 bs) →
      b64decode content = some bs) := by
  have htU : takeUntilCRLF (content ++ '\r' :: '\n' :: rest) =
      .ok ('\r' :: '\n' :: rest, content) := by
    simp [takeUntilCRLF, findCRLF_append content rest hcr]
  have hplus : ptag [ '+', ' ' ] ('+' :: ' ' :: (content ++ '\r' :: '\n' :: rest)) =
      .ok (content ++ '\r' :: '\n' :: rest, [ '+', ' ' ]) :=
    ptag_self [ '+', ' ' ] (content ++ '\r' :: '\n' :: rest)
  have hcrlf : crlf ('\r' :: '\n' :: rest) = .ok (rest, [ '\r', '\n' ]) :=
    ptag_self [ '\r', '\n' ] rest
  have hbase : ∀ bs, b64decode content = some bs →
      continue_req ('+' :: ' ' :: (content ++ '\r' :: '\n' :: rest)) = .ok (rest, .base64 bs) := by
    intro bs hbs
    simp [continue_req, pmap, pseq, alt2, pmapRes, hplus, htU, hbs, hcrlf]
  refine ⟨hbase, ?_, ?_⟩
  · intro hnone c t hrt
    simp [continue_req, pmap, pseq, alt2, pmapRes, hplus, htU, hnone, hrt, hcrlf]
  · intro r bs h
    cases hdec : b64decode content with
    | some bs0 =>
        have := (hbase bs0 hdec).symm.trans h
        simp at this
        rw [this.2]
    | none =>
        exfalso
        cases hrt : resp_text false (content ++ '\r' :: '\n' :: rest) with
        | error e =>
            rw [show continue_req ('+' :: ' ' :: (content ++ '\r' :: '\n' :: rest)) = .error e from by
              simp [continue_req, pmap, pseq, alt2, pmapRes, hplus, htU, hdec, hrt]] at h
            simp at h
        | ok p1 =>
            obtain ⟨rem1, ct⟩ := p1
            cases hcl : crlf rem1 with
            | error e =>
                rw [show continue_req ('+' :: ' ' :: (content ++ '\r' :: '\n' :: rest)) = .error e from by
                  simp [continue_req, pmap, pseq, alt2, pmapRes, hplus, htU, hdec, hrt, hcl]] at h
                simp at h
            | ok p2 =>
                obtain ⟨rem2, _⟩ := p2
                rw [show continue_req ('+' :: ' ' :: (content ++ '\r' :: '\n' :: rest)) =
                    .ok (rem2, .basic ct.1 ct.2) from by
                  simp [continue_req, pmap, pseq, alt2, pmapRes, hplus, htU, hdec, hrt, hcl]] at h
                simp at h

/-- Claim C3, witness: both directions evaluated on concrete lines. -/
theorem continue_req_spec_witness :
    continue_req ( "+ aGk=\r\n" ).data = .ok ([], .base64 [104, 105]) ∧
    continue_req ( "+ hello\r\n" ).data = .ok ([], .basic none ( "hello" ).data) := by
  constructor
  · exact (continue_req_spec ( "aGk=" ).data [] (by decide)).1 [104, 105] (by decide)
  · exact (continue_req_spec ( "hello" ).data [] (by decide)).2.1 (by decide)
      none ( "hello" ).data (by decide)

/-! Claim C9: the capability-data parser does not demand IMAP4rev1. -/

/-- Space-prefixed concatenation of atoms, as they appear after the
CAPABILITY keyword. -/
def spJoin : List (List Char) → List Char
  | [] => []
  | c :: cs => ' ' :: (c ++ spJoin cs)

theorem spJoin_length_ge (cs : List (List Char)) : cs.length ≤ (spJoin cs).length := by
  induction cs with
  | nil => simp [spJoin]
  | cons c cs ih => simp [spJoin]; omega

theorem spJoin_head_not_atom (cs : List (List Char)) (r : Char) (rs : Input)
    (hr : isAtomChar r = false) :
    ∃ d ds, spJoin cs ++ r :: rs = d :: ds ∧ isAtomChar d = false := by
  cases cs with
  | nil => exact ⟨r, rs, rfl, hr⟩
  | cons c cs => exact ⟨' ', (c ++ spJoin cs) ++ r :: rs, rfl, by decide⟩

theorem capability_atom_ok (c : List Char) (d : Char) (ds : Input)
    (hne : c ≠ []) (hall : ∀ b ∈ c, isAtomChar b = true) (hd : isAtomChar d = false) :
    capability (c ++ d :: ds) = .ok (d :: ds, capabilityFrom c) := by
  simp [capability, pmap, atom, take_while1_append isAtomChar c d ds hne hall hd]

theorem sepAux_caps : ∀ (cs : List (List Char)) (fuel : Nat) (r : Char) (rs : Input),
    (∀ c ∈ cs, c ≠ [] ∧ ∀ b ∈ c, isAtomChar b = true) →
    isAtomChar r = false → r ≠ ' ' → cs.length < fuel →
    sepList1Aux sp capability fuel (spJoin cs ++ r :: rs) =
      .ok (r :: rs, cs.map capabilityFrom) := by
  intro cs
  induction cs with
  | nil =>
      intro fuel r rs _ hr hsp hfuel
      cases fuel with
      | zero => omega
      | succ f =>
          have hmis : ptag [ ' ' ] (r :: rs) = .error (.recoverable .tagKind) :=
            ptag_mismatch ' ' r [] rs (by simp; exact fun h => hsp h.symm)
          simp [spJoin, sepList1Aux, sp, hmis]
  | cons c cs ih =>
      intro fuel r rs hcaps hr hsp hfuel
      cases fuel with
      | zero => simp at hfuel
      | succ f =>
          obtain ⟨hcne, hcall⟩ := hcaps c (by simp)
          obtain ⟨d, ds, hshape, hd⟩ := spJoin_head_not_atom cs r rs hr
          have hcap : capability (c ++ (spJoin cs ++ r :: rs)) =
              .ok (spJoin cs ++ r :: rs, capabilityFrom c) := by
            rw [hshape]
            exact capability_atom_ok c d ds hcne hcall hd
          have hsep : sp (' ' :: (c ++ (spJoin cs ++ r :: rs))) =
              .ok (c ++ (spJoin cs ++ r :: rs), [ ' ' ]) :=
            ptag_self [ ' ' ] (c ++ (spJoin cs ++ r :: rs))
          have hprog : (spJoin cs ++ r :: rs).length <
              (' ' :: (c ++ (spJoin cs ++ r :: rs))).length := by
            simp [List.length_append]
            omega
          have hih := ih f r rs (fun x hx => hcaps x (by simp [hx])) hr hsp (by
            simp at hfuel; omega)
          have hshape2 : spJoin (c :: cs) ++ r :: rs = ' ' :: (c ++ (spJoin cs ++ r :: rs)) := by
            simp [spJoin]
          rw [hshape2]
          simp only [sepList1Aux, hsep, hcap]
          rw [if_pos hprog]
          simp [hih]

/-- Claim C9: for CAPABILITY followed by one or more space-separated atoms,
`capability_data` succeeds with a nonempty capability list even when no atom
is IMAP4rev1 under case-insensitive comparison; the ABNF demand that
IMAP4rev1 appear in the list is not enforced. -/
theorem capability_data_no_rev1_check (caps : List (List Char)) (r : Char) (rs : Input)
    (hne : caps ≠ [])
    (hcaps : ∀ c ∈ caps, c ≠ [] ∧ ∀ b ∈ c, isAtomChar b = true)
    (hnorev : ∀ c ∈ caps, lowerStr c ≠ ( "imap4rev1" ).data)
    (hr : isAtomChar r = false) (hsp : r ≠ ' ') :
    capability_data ([ 'C', 'A', 'P', 'A', 'B', 'I', 'L', 'I', 'T', 'Y' ] ++ (spJoin caps ++ r :: rs)) =
      .ok (r :: rs, NonEmptyVec.mk (caps.map capabilityFrom)) ∧
    0 < (caps.map capabilityFrom).length := by
  cases caps with
  | nil => exact absurd rfl hne
  | cons c0 cs =>
      obtain ⟨hc0ne, hc0all⟩ := hcaps c0 (by simp)
      have hshape2 : spJoin (c0 :: cs) ++ r :: rs = ' ' :: (c0 ++ (spJoin cs ++ r :: rs)) := by
        simp [spJoin]
      have htagc : ptagNoCase [ 'C', 'A', 'P', 'A', 'B', 'I', 'L', 'I', 'T', 'Y' ]
          ([ 'C', 'A', 'P', 'A', 'B', 'I', 'L', 'I', 'T', 'Y' ] ++
            (' ' :: (c0 ++ (spJoin cs ++ r :: rs)))) =
          .ok (' ' :: (c0 ++ (spJoin cs ++ r :: rs)), [ 'C', 'A', 'P', 'A', 'B', 'I', 'L', 'I', 'T', 'Y' ]) :=
        ptagNoCase_self [ 'C', 'A', 'P', 'A', 'B', 'I', 'L', 'I', 'T', 'Y' ]
          (' ' :: (c0 ++ (spJoin cs ++ r :: rs)))
      have hsep : sp (' ' :: (c0 ++ (spJoin cs ++ r :: rs))) =
          .ok (c0 ++ (spJoin cs ++ r :: rs), [ ' ' ]) :=
        ptag_self [ ' ' ] (c0 ++ (spJoin cs ++ r :: rs))
      obtain ⟨d, ds, hshape, hd⟩ := spJoin_head_not_atom cs r rs hr
      have hcap : capability (c0 ++ (spJoin cs ++ r :: rs)) =
          .ok (spJoin cs ++ r :: rs, capabilityFrom c0) := by
        rw [hshape]
        exact capability_atom_ok c0 d ds hc0ne hc0all hd
      have hfuel : cs.length < (spJoin cs ++ r :: rs).length + 1 := by
        have := spJoin_length_ge cs
        simp [List.length_append]
        omega
      have haux := sepAux_caps cs ((spJoin cs ++ r :: rs).length + 1) r rs
        (fun x hx => hcaps x (by simp [hx])) hr hsp hfuel
      constructor
      · rw [hshape2]
        simp only [capability_data, pseq, htagc, hsep, hcap, separated_list1, haux]
        simp
      · simp

/-- Claim C9, witness: two unknown capabilities, evaluated. -/
theorem capability_data_no_rev1_check_witness :
    capability_data ( "CAPABILITY FOO BAR\r\n" ).data =
      .ok ([ '\r', '\n' ],
        NonEmptyVec.mk [Capability.other ( "FOO" ).data, Capability.other ( "BAR" ).data]) := by
  have h := (capability_data_no_rev1_check [( "FOO" ).data, ( "BAR" ).data] '\r' [ '\n' ]
    (by simp) (by decide) (by decide) (by decide) (by decide)).1
  exact h

/-! The mailbox domain, from `imap-codec/src/mailbox.rs`. -/

/-- Modelled from the spec: a mailbox name is the INBOX variant or any
other astring (the `Mailbox` type of `imap-types` is not under `src/`). -/
inductive Mailbox where
  | inbox
  | other (a : AString)
  deriving DecidableEq, Repr

/-- Modelled from the spec: the conversion from an astring; a byte sequence
that is an ASCII case-insensitive match of INBOX is the Inbox variant,
every other astring stays as it is. -/
def Mailbox.ofAString (a : AString) : Mailbox :=
  if lowerStr a.bytes = ( "inbox" ).data then .inbox else .other a

/-- Parser `mailbox = "INBOX" / astring` from `mailbox.rs`: the astring
parser mapped through the INBOX case folding. -/
def mailbox : Parser Mailbox := pmap astring Mailbox.ofAString

/-- Claim C5: every byte sequence parsed as a mailbox whose astring bytes
case-insensitively match INBOX yields the Inbox variant; every other
astring yields Other with the astring unchanged. -/
theorem mailbox_inbox_folding (input rem : Input) (a : AString)
    (h : astring input = .ok (rem, a)) :
    (lowerStr a.bytes = ( "inbox" ).data → mailbox input = .ok (rem, Mailbox.inbox)) ∧
    (lowerStr a.bytes ≠ ( "inbox" ).data → mailbox input = .ok (rem, Mailbox.other a)) := by
  constructor
  · intro hl; simp [mailbox, pmap, h, Mailbox.ofAString, hl]
  · intro hl; simp [mailbox, pmap, h, Mailbox.ofAString, hl]

/-- Claim C5, witness: a mixed-case INBOX and a non-INBOX atom, and also a
quoted mixed-case INBOX, evaluated. -/
theorem mailbox_inbox_folding_witness :
    mailbox ( "iNbOx " ).data = .ok ([ ' ' ], Mailbox.inbox) ∧
    mailbox ( "xyz " ).data = .ok ([ ' ' ], Mailbox.other (AString.atom ( "xyz" ).data)) ∧
    mailbox ( "\"iNbOx\"" ).data = .ok ([], Mailbox.inbox) := by
  refine ⟨?_, ?_, ?_⟩
  · exact (mailbox_inbox_folding ( "iNbOx " ).data [ ' ' ]
      (AString.atom ( "iNbOx" ).data) (by decide)).1 (by decide)
  · exact (mailbox_inbox_folding ( "xyz " ).data [ ' ' ]
      (AString.atom ( "xyz" ).data) (by decide)).2 (by decide)
  · exact (mailbox_inbox_folding ( "\"iNbOx\"" ).data []
      (AString.string (IString.quoted ( "iNbOx" ).data)) (by decide)).1 (by decide)

/-! The FETCH argument types, from `imap-types/src/fetch.rs`. -/

/-- Modelled from the spec (section 4.5): a body section specifier; only
its existence matters to the FETCH argument type. -/
inductive Section where
  | part (p : List Nat)
  | header (p : Option (List Nat))
  | headerFields (p : Option (List Nat)) (fields : List AString)
  | headerFieldsNot (p : Option (List Nat)) (fields : List AString)
  | text (p : Option (List Nat))
  deriving DecidableEq, Repr

/-- Message data item names (`FetchAttribute` in `imap-types/src/fetch.rs`). -/
inductive FetchAttribute where
  | body
  | bodyExt (sectionSpec : Option Section) (partialRange : Option (Nat × Nat)) (peek : Bool)
  | bodyStructure
  | envelope
  | flags
  | internalDate
  | rfc822
  | rfc822Header
  | rfc822Size
  | rfc822Text
  | uid
  deriving DecidableEq, Repr

/-- The FETCH shorthand macros (`Macro` in `imap-types/src/fetch.rs`). -/
inductive FetchMacro where
  | fast
  | all
  | full
  deriving DecidableEq, Repr

/-- Macro expansion, from `imap-types/src/fetch.rs`. -/
def FetchMacro.expand : FetchMacro → List FetchAttribute
  | .all => [.flags, .internalDate, .rfc822Size, .envelope]
  | .fast => [.flags, .internalDate, .rfc822Size]
  | .full => [.flags, .internalDate, .rfc822Size, .envelope, .body]

/-- Either a macro or a list of message data items
(`MacroOrFetchAttributes` in `imap-types/src/fetch.rs`).  The list field is
a plain vector: the Rust type carries `Vec<FetchAttribute>`, with no
nonemptiness constraint. -/
inductive MacroOrFetchAttributes where
  | ofMacro (m : FetchMacro)
  | fetchAttributes (attrs : List FetchAttribute)
  deriving DecidableEq, Repr

/-- The `From<Macro>` conversion of `imap-types/src/fetch.rs`. -/
def MacroOrFetchAttributes.fromMacro (m : FetchMacro) : MacroOrFetchAttributes :=
  .ofMacro m

/-- The `From<Vec<FetchAttribute>>` conversion of `imap-types/src/fetch.rs`:
it wraps the vector unchanged and performs no emptiness check. -/
def MacroOrFetchAttributes.fromAttributes (l : List FetchAttribute) :
    MacroOrFetchAttributes := .fetchAttributes l

/-- Claim C8, counterexample: a FETCH argument value with an empty
attribute list is constructible, through the unchecked `From` conversion. -/
theorem fetch_empty_list_counterexample :
    MacroOrFetchAttributes.fromAttributes [] =
      MacroOrFetchAttributes.fetchAttributes ([] : List FetchAttribute) ∧
    ∃ v : MacroOrFetchAttributes, v = MacroOrFetchAttributes.fetchAttributes [] :=
  ⟨rfl, ⟨MacroOrFetchAttributes.fetchAttributes [], rfl⟩⟩

/-- Claim C8, amended: the FETCH argument type represents either a macro
(ALL, FAST or FULL) or an explicit list of fetch attributes; the list is
not constrained to be non-empty, and the `From` conversion wraps any list,
the empty one included, unchanged. -/
theorem fetch_macro_or_attrs (v : MacroOrFetchAttributes) :
    ((∃ m, v = MacroOrFetchAttributes.ofMacro m ∧
        (m = FetchMacro.all ∨ m = FetchMacro.fast ∨ m = FetchMacro.full)) ∨
      (∃ l, v = MacroOrFetchAttributes.fetchAttributes l)) ∧
    (∀ l, MacroOrFetchAttributes.fromAttributes l =
        MacroOrFetchAttributes.fetchAttributes l) := by
  constructor
  · cases v with
    | ofMacro m => exact Or.inl ⟨m, rfl, by cases m <;> simp⟩
    | fetchAttributes l => exact Or.inr ⟨l, rfl⟩
  · intro l
    rfl

/-! The BODYSTRUCTURE domain, from `src/parse/body.rs`.  The value types
(`types/body.rs`) and the `envelope` and core parsers are not under `src/`
and are modelled from the spec. -/

/-- Modelled from the spec: the basic body fields record. -/
structure BasicFields where
  parameter_list : List (IString × IString)
  id : NStringV
  description : NStringV
  content_transfer_encoding : IString
  size : Nat
  deriving Repr

/-- Modelled from the spec (section 4.9): one envelope address, four
nstrings. -/
structure Address where
  name : NStringV
  adl : NStringV
  mailboxName : NStringV
  host : NStringV
  deriving Repr

/-- Modelled from the spec (section 4.9): the flat envelope record. -/
structure Envelope where
  date : NStringV
  subject : NStringV
  fromA : List Address
  sender : List Address
  reply_to : List Address
  toA : List Address
  cc : List Address
  bcc : List Address
  in_reply_to : NStringV
  message_id : NStringV
  deriving Repr

/-- Modelled from the spec: the single-part extension cascade record. -/
structure SinglePartExtensionData where
  md5 : NStringV
  disposition : Option (Option (IString × List (IString × IString)))
  language : Option (List IString)
  location : Option NStringV
  extension : List Char
  deriving Repr

/-- Modelled from the spec: the multi-part extension cascade record. -/
structure MultiPartExtensionData where
  parameter_list : List (IString × IString)
  disposition : Option (Option (IString × List (IString × IString)))
  language : Option (List IString)
  location : Option NStringV
  extension : List Char
  deriving Repr

mutual

/-- Modelled from the spec: the body structure tree (the `Body` record of
the source is flattened into the single-part constructor). -/
inductive BodyStructure where
  | single (basic : BasicFields) (specific : SpecificFields)
      (extension : Option SinglePartExtensionData)
  | multi (bodies : List BodyStructure) (subtype : IString)
      (extension_data : Option MultiPartExtensionData)

/-- Modelled from the spec: type-specific body fields. -/
inductive SpecificFields where
  | basic (type_ : IString) (subtype : IString)
  | message (envelope : Envelope) (body_structure : BodyStructure)
      (number_of_lines : Nat)
  | text (subtype : IString) (number_of_lines : Nat)

end

/-- Parser `media-subtype = string` (from `parse/body.rs`). -/
def media_subtype : Parser IString := stringP

/-- Parser `media-basic = string SP media-subtype` (simplified grammar, as
in `parse/body.rs`). -/
def media_basic : Parser (IString × IString) :=
  pseq stringP (preceded sp media_subtype)

/-- Parser `media-message`: the literal quoted MESSAGE RFC822 pair (from
`parse/body.rs`). -/
def media_message : Parser (List Char) :=
  ptagNoCase ( "\"MESSAGE\" \"RFC822\"" ).data

/-- Parser `media-text`: the quoted TEXT keyword, a space, then the
subtype (from `parse/body.rs`). -/
def media_text : Parser IString :=
  preceded (ptagNoCase ( "\"TEXT\" " ).data) media_subtype

/-- Parser `body-fld-param`: a parenthesised nonempty list of key-value
string pairs, or NIL (from `parse/body.rs`). -/
def body_fld_param : Parser (List (IString × IString)) :=
  alt2
    (delimited (ptag [ '(' ])
      (separated_list1 sp (pmap (pseq stringP (preceded sp stringP)) id))
      (ptag [ ')' ]))
    (pvalue [] nil)

/-- Parser `body-fld-id = nstring` (from `parse/body.rs`). -/
def body_fld_id : Parser NStringV := nstring

/-- Parser `body-fld-desc = nstring` (from `parse/body.rs`). -/
def body_fld_desc : Parser NStringV := nstring

/-- Parser `body-fld-enc = string` (simplified grammar, as in
`parse/body.rs`). -/
def body_fld_enc : Parser IString := stringP

/-- Parser `body-fld-octets = number` (from `parse/body.rs`). -/
def body_fld_octets : Parser Nat := number

/-- Parser `body-fld-lines = number` (from `parse/body.rs`). -/
def body_fld_lines : Parser Nat := number

/-- Parser `body-fields` (from `parse/body.rs`). -/
def body_fields : Parser BasicFields :=
  pmap (pseq body_fld_param (preceded sp (pseq body_fld_id (preceded sp
      (pseq body_fld_desc (preceded sp (pseq body_fld_enc (preceded sp body_fld_octets))))))))
    (fun x => ⟨x.1, x.2.1, x.2.2.1, x.2.2.2.1, x.2.2.2.2⟩)

/-- Parser `body-fld-md5 = nstring` (from `parse/body.rs`). -/
def body_fld_md5 : Parser NStringV := nstring

/-- Parser `body-fld-dsp`: a parenthesised string with parameters, or NIL
(from `parse/body.rs`). -/
def body_fld_dsp : Parser (Option (IString × List (IString × IString))) :=
  alt2
    (delimited (ptag [ '(' ])
      (pmap (pseq stringP (preceded sp body_fld_param)) Option.some)
      (ptag [ ')' ]))
    (pvalue none nil)

/-- Parser `body-fld-lang`: an nstring, or a parenthesised nonempty string
list (from `parse/body.rs`). -/
def body_fld_lang : Parser (List IString) :=
  alt2
    (pmap nstring (fun n => match n with | some item => [item] | none => []))
    (delimited (ptag [ '(' ]) (separated_list1 sp stringP) (ptag [ ')' ]))

/-- Parser `body-fld-loc = nstring` (from `parse/body.rs`). -/
def body_fld_loc : Parser NStringV := nstring

/-- Parser `body-extension` (from `parse/body.rs`): a recogniser with a
decrementing recursion budget; reaching zero is a terminal failure. -/
def body_extension_limited (input : Input) (remaining_recursion : Nat) :
    PResult (List Char) :=
  if h : remaining_recursion = 0 then .error (.terminal .tooLarge)
  else
    (alt2 (precognize nstring)
      (alt2 (precognize number)
        (precognize (delimited (ptag [ '(' ])
          (separated_list1 sp (fun j => body_extension_limited j (remaining_recursion - 1)))
          (ptag [ ')' ]))))) input
termination_by remaining_recursion
decreasing_by simp_wf; omega

/-- Wrapper `body_extension` returning a parser at a given budget (from
`parse/body.rs`). -/
def body_extension (remaining_recursions : Nat) : Parser (List Char) :=
  fun input => body_extension_limited input remaining_recursions

/-- Parser `body-ext-1part` (from `parse/body.rs`): the md5 field, then a
cascade of optional disposition, language, location and extension data,
each presence gating the next. -/
def body_ext_1part : Parser SinglePartExtensionData := fun input =>
  match body_fld_md5 input with
  | .error e => .error e
  | .ok (rem0, md5) =>
    match popt (preceded sp body_fld_dsp) rem0 with
    | .error e => .error e
    | .ok (rem1, dspOpt) =>
      match dspOpt with
      | none => .ok (rem1, ⟨md5, none, none, none, []⟩)
      | some dsp =>
        match popt (preceded sp body_fld_lang) rem1 with
        | .error e => .error e
        | .ok (rem2, langOpt) =>
          match langOpt with
          | none => .ok (rem2, ⟨md5, some dsp, none, none, []⟩)
          | some lang =>
            match popt (preceded sp body_fld_loc) rem2 with
            | .error e => .error e
            | .ok (rem3, locOpt) =>
              match locOpt with
              | none => .ok (rem3, ⟨md5, some dsp, some lang, none, []⟩)
              | some loc =>
                match precognize (many0 (preceded sp (body_extension 8))) rem3 with
                | .error e => .error e
                | .ok (rem4, ext) => .ok (rem4, ⟨md5, some dsp, some lang, some loc, ext⟩)

/-- Parser `body-ext-mpart` (from `parse/body.rs`): like the single-part
cascade but headed by the parameter list. -/
def body_ext_mpart : Parser MultiPartExtensionData := fun input =>
  match body_fld_param input with
  | .error e => .error e
  | .ok (rem0, param) =>
    match popt (preceded sp body_fld_dsp) rem0 with
    | .error e => .error e
    | .ok (rem1, dspOpt) =>
      match dspOpt with
      | none => .ok (rem1, ⟨param, none, none, none, []⟩)
      | some dsp =>
        match popt (preceded sp body_fld_lang) rem1 with
        | .error e => .error e
        | .ok (rem2, langOpt) =>
          match langOpt with
          | none => .ok (rem2, ⟨param, some dsp, none, none, []⟩)
          | some lang =>
            match popt (preceded sp body_fld_loc) rem2 with
            | .error e => .error e
            | .ok (rem3, locOpt) =>
              match locOpt with
              | none => .ok (rem3, ⟨param, some dsp, some lang, none, []⟩)
              | some loc =>
                match precognize (many0 (preceded sp (body_extension 8))) rem3 with
                | .error e => .error e
                | .ok (rem4, ext) => .ok (rem4, ⟨param, some dsp, some lang, some loc, ext⟩)

/-- Modelled from the spec (section 4.9): one address, four nstrings in
parentheses. -/
def address : Parser Address :=
  pmap (delimited (ptag [ '(' ])
      (pseq nstring (preceded sp (pseq nstring (preceded sp
        (pseq nstring (preceded sp nstring))))))
      (ptag [ ')' ]))
    (fun x => ⟨x.1, x.2.1, x.2.2.1, x.2.2.2⟩)

/-- Modelled from the spec (section 4.9): an address list is NIL or a
parenthesised nonempty run of addresses. -/
def address_list : Parser (List Address) :=
  alt2 (pvalue [] nil) (delimited (ptag [ '(' ]) (many1 address) (ptag [ ')' ]))

/-- Modelled from the spec (section 4.9): the envelope as ten
space-separated fields in parentheses. -/
def envelope : Parser Envelope :=
  pmap (delimited (ptag [ '(' ])
      (pseq nstring (preceded sp (pseq nstring (preceded sp
        (pseq address_list (preceded sp (pseq address_list (preceded sp
          (pseq address_list (preceded sp (pseq address_list (preceded sp
            (pseq address_list (preceded sp (pseq address_list (preceded sp
              (pseq nstring (preceded sp nstring))))))))))))))))))
      (ptag [ ')' ]))
    (fun x => ⟨x.1, x.2.1, x.2.2.1, x.2.2.2.1, x.2.2.2.2.1, x.2.2.2.2.2.1,
      x.2.2.2.2.2.2.1, x.2.2.2.2.2.2.2.1, x.2.2.2.2.2.2.2.2.1, x.2.2.2.2.2.2.2.2.2⟩)

/-- Parser `body-type-basic = media-basic SP body-fields` (from
`parse/body.rs`). -/
def body_type_basic : Parser (BasicFields × SpecificFields) :=
  pmap (pseq media_basic (preceded sp body_fields))
    (fun x => (x.2, SpecificFields.basic x.1.1 x.1.2))

/-- Parser `body-type-text = media-text SP body-fields SP body-fld-lines`
(from `parse/body.rs`). -/
def body_type_text : Parser (BasicFields × SpecificFields) :=
  pmap (pseq media_text (preceded sp (pseq body_fields (preceded sp body_fld_lines))))
    (fun x => (x.2.1, SpecificFields.text x.1 x.2.2))

mutual

/-- Parser `body` (from `parse/body.rs`): zero budget is a terminal
failure; otherwise a parenthesised one-part or multi-part body, each
alternative running at a decremented budget. -/
def body_limited (input : Input) (remaining_recursions : Nat) :
    PResult BodyStructure :=
  if h : remaining_recursions = 0 then .error (.terminal .tooLarge)
  else
    (delimited (ptag [ '(' ])
      (alt2 (fun j => body_type_1part_limited j (remaining_recursions - 1))
            (fun j => body_type_mpart_limited j (remaining_recursions - 1)))
      (ptag [ ')' ])) input
termination_by (remaining_recursions, 0)

/-- Parser `body-type-1part` (from `parse/body.rs`): message, text or
basic body, then an optional extension tail; the message alternative runs
at a decremented budget. -/
def body_type_1part_limited (input : Input) (remaining_recursions : Nat) :
    PResult BodyStructure :=
  if h : remaining_recursions = 0 then .error (.terminal .tooLarge)
  else
    (pmap (pseq (alt2 (fun j => body_type_msg_limited j (remaining_recursions - 1))
              (alt2 body_type_text body_type_basic))
            (popt (preceded sp body_ext_1part)))
      (fun x => BodyStructure.single x.1.1 x.1.2 x.2)) input
termination_by (remaining_recursions, 0)

/-- Parser `body-type-msg` (from `parse/body.rs`): the MESSAGE RFC822
media type, fields, envelope, an embedded body at a decremented budget, and
the line count. -/
def body_type_msg_limited (input : Input) (remaining_recursions : Nat) :
    PResult (BasicFields × SpecificFields) :=
  if h : remaining_recursions = 0 then .error (.terminal .tooLarge)
  else
    (pmap (pseq media_message (preceded sp (pseq body_fields (preceded sp
          (pseq envelope (preceded sp (pseq
            (fun j => body_limited j (remaining_recursions - 1))
            (preceded sp body_fld_lines))))))))
      (fun x => (x.2.1, SpecificFields.message x.2.2.1 x.2.2.2.1 x.2.2.2.2))) input
termination_by (remaining_recursions, 0)

/-- Parser `body-type-mpart` (from `parse/body.rs`): one or more bodies at
the same budget, the subtype, and an optional extension tail. -/
def body_type_mpart_limited (input : Input) (remaining_recursion : Nat) :
    PResult BodyStructure :=
  if h : remaining_recursion = 0 then .error (.terminal .tooLarge)
  else
    (pmap (pseq (many1 (fun j => body_limited j remaining_recursion))
            (pseq sp (pseq media_subtype (popt (preceded sp body_ext_mpart)))))
      (fun x => BodyStructure.multi x.1 x.2.2.1 x.2.2.2)) input
termination_by (remaining_recursion, 1)

end

/-- Wrapper `body` returning a parser at a given budget (from
`parse/body.rs`; the source comment recommends a budget of eight). -/
def body (remaining_recursions : Nat) : Parser BodyStructure :=
  fun input => body_limited input remaining_recursions

/-! Claim C2: the recursion budget of the BODYSTRUCTURE parser. -/

theorem many1_err {α : Type} {p : Parser α} {i : Input} {e : PErr}
    (hp : p i = .error e) : many1 p i = .error e := by
  simp [many1, hp]

theorem stringP_paren (xs : Input) : stringP ('(' :: xs) = .error (.recoverable .tagKind) := by
  have h1 : ptag [ '"' ] ('(' :: xs) = .error (.recoverable .tagKind) :=
    ptag_mismatch '"' '(' [] xs (by decide)
  have h2 : ptag [ '{' ] ('(' :: xs) = .error (.recoverable .tagKind) :=
    ptag_mismatch '{' '(' [] xs (by decide)
  simp [stringP, alt2, quoted, literal, dquote, pseq, h1, h2]

theorem media_message_paren (xs : Input) :
    media_message ('(' :: xs) = .error (.recoverable .tagKind) := by
  have h : tagAux (fun a b => lowerChar a == lowerChar b)
      (( "\"MESSAGE\" \"RFC822\"" ).data) ('(' :: xs) = .error (.recoverable .tagKind) := by
    rw [show ( "\"MESSAGE\" \"RFC822\"" ).data = '"' :: ( "MESSAGE\" \"RFC822\"" ).data from rfl]
    simp [tagAux, show (lowerChar '"' == lowerChar '(') = false from by decide]
  simp [media_message, ptagNoCase, h]

theorem media_text_paren (xs : Input) :
    media_text ('(' :: xs) = .error (.recoverable .tagKind) := by
  have h : tagAux (fun a b => lowerChar a == lowerChar b)
      (( "\"TEXT\" " ).data) ('(' :: xs) = .error (.recoverable .tagKind) := by
    rw [show ( "\"TEXT\" " ).data = '"' :: ( "TEXT\" " ).data from rfl]
    simp [tagAux, show (lowerChar '"' == lowerChar '(') = false from by decide]
  simp [media_text, preceded, pseq, pmap, ptagNoCase, h]

theorem body_type_basic_paren (xs : Input) :
    body_type_basic ('(' :: xs) = .error (.recoverable .tagKind) := by
  simp [body_type_basic, pmap, pseq, media_basic, stringP_paren xs]

theorem body_type_text_paren (xs : Input) :
    body_type_text ('(' :: xs) = .error (.recoverable .tagKind) := by
  simp [body_type_text, pmap, pseq, media_text_paren xs]

theorem body_1part_one (i : Input) :
    body_type_1part_limited i 1 = .error (.terminal .tooLarge) := by
  simp [body_type_1part_limited, body_type_msg_limited, alt2, pseq, pmap]

theorem body_1part_paren (xs : Input) (b : Nat) (hb : 2 ≤ b) :
    body_type_1part_limited ('(' :: xs) b = .error (.recoverable .tagKind) := by
  have hmsg : body_type_msg_limited ('(' :: xs) (b - 1) = .error (.recoverable .tagKind) := by
    simp [body_type_msg_limited, dif_neg (show ¬ (b - 1 = 0) by omega), pmap, pseq,
      media_message_paren xs]
  simp [body_type_1part_limited, dif_neg (show ¬ (b = 0) by omega), pmap, pseq, alt2,
    hmsg, body_type_text_paren xs, body_type_basic_paren xs]

theorem body_paren_fail : ∀ (b : Nat), 1 ≤ b → ∀ (N : Nat), 1 ≤ N → b - 1 ≤ N →
    body_limited (List.replicate N '(') b = .error (.terminal .tooLarge) := by
  intro b
  induction b using Nat.strong_induction_on with
  | _ b ih =>
    intro hb N hN hbN
    obtain ⟨N', rfl⟩ : ∃ M, N = M + 1 := ⟨N - 1, by omega⟩
    have hrep : List.replicate (N' + 1) '(' = '(' :: List.replicate N' '(' := by
      simp [List.replicate_succ]
    have htag : ptag [ '(' ] ('(' :: List.replicate N' '(') =
        .ok (List.replicate N' '(', [ '(' ]) :=
      ptag_self [ '(' ] (List.replicate N' '(')
    rw [hrep]
    by_cases hb1 : b - 1 = 0
    · have h1 : body_type_1part_limited (List.replicate N' '(') 0 =
          .error (.terminal .tooLarge) := by
        simp [body_type_1part_limited]
      simp [body_limited, dif_neg (show ¬ (b = 0) by omega), delimited, pmap, pseq,
        htag, alt2, hb1, h1]
    · by_cases hb2 : b - 1 = 1
      · have h1 := body_1part_one (List.replicate N' '(')
        simp [body_limited, dif_neg (show ¬ (b = 0) by omega), delimited, pmap, pseq,
          htag, alt2, hb2, h1]
      · have hb3 : 2 ≤ b - 1 := by omega
        obtain ⟨N'', rfl⟩ : ∃ M, N' = M + 1 := ⟨N' - 1, by omega⟩
        have hrep2 : List.replicate (N'' + 1) '(' = '(' :: List.replicate N'' '(' := by
          simp [List.replicate_succ]
        have h1 : body_type_1part_limited (List.replicate (N'' + 1) '(') (b - 1) =
            .error (.recoverable .tagKind) := by
          rw [hrep2]; exact body_1part_paren _ _ hb3
        have hbody : body_limited (List.replicate (N'' + 1) '(') (b - 1) =
            .error (.terminal .tooLarge) :=
          ih (b - 1) (by omega) (by omega) (N'' + 1) (by omega) (by omega)
        have hmp : body_type_mpart_limited (List.replicate (N'' + 1) '(') (b - 1) =
            .error (.terminal .tooLarge) := by
          simp [body_type_mpart_limited, dif_neg (show ¬ (b - 1 = 0) by omega), pmap,
            pseq, many1, hbody]
        simp [body_limited, dif_neg (show ¬ (b = 0) by omega), delimited, pmap, pseq,
          htag, alt2, h1, hmp]

/-- Claim C2: every budget check of the BODYSTRUCTURE parser returns a
terminal malformed failure (the nom Failure with the TooLarge, i.e. Budget,
kind) when the budget reaches zero, never an incomplete result; and with
the initial budget of eight, every input of more than sixteen nested open
parens is rejected with exactly that terminal Budget failure. -/
theorem body_recursion_budget :
    (∀ input : Input,
      body_limited input 0 = .error (.terminal .tooLarge) ∧
      body_type_1part_limited input 0 = .error (.terminal .tooLarge) ∧
      body_type_msg_limited input 0 = .error (.terminal .tooLarge) ∧
      body_type_mpart_limited input 0 = .error (.terminal .tooLarge) ∧
      body_extension_limited input 0 = .error (.terminal .tooLarge)) ∧
    (∀ N : Nat, N > 16 → body 8 (List.replicate N '(') = .error (.terminal .tooLarge)) := by
  constructor
  · intro input
    refine ⟨?_, ?_, ?_, ?_, ?_⟩ <;>
      simp [body_limited, body_type_1part_limited, body_type_msg_limited,
        body_type_mpart_limited, body_extension_limited]
  · intro N hN
    show body_limited (List.replicate N '(') 8 = .error (.terminal .tooLarge)
    exact body_paren_fail 8 (by omega) N (by omega) (by omega)

/-- Claim C2, witness: seventeen nested open parens at budget eight. -/
theorem body_recursion_budget_witness :
    (17 : Nat) > 16 ∧ body 8 (List.replicate 17 '(') = .error (.terminal .tooLarge) :=
  ⟨by decide, body_recursion_budget.2 17 (by decide)⟩

end Imap
